import Mathlib

/-!
# The `untangle::actuator` of `actuator.h`

A shallow embedding of the header `src/actuator.h` and the properties of its
operations.

## How the C++ is rendered

* An action is a `std::function<...>` object living in storage owned by the
  caller.  The actuator only stores pointers (`actionT*`) to such objects.  The
  caller's storage is the field `heap` of `Env`: an address holds either an
  empty `std::function` (`none`) or a callable (`some f`).  A pointer is an
  `Option Addr`, `none` being `nullptr`.
* A callable either returns a value or throws `invalid_action`; it may read and
  change the `world` (the bound targets and the handles to them), but it does not
  touch the storage of the actions nor the actuator (the design is not
  re-entrant).
* The arguments of a call are a value of a type `A`.  `operator()` hands
  `std::forward<Args>(args)...` to every entry inside its loop, so the call of
  one entry may leave the caller's arguments changed for the next: an rvalue
  handed to a by-value parameter is moved from.  `call_operator_forward` renders
  this with a function `moved` (what a call leaves of the arguments);
  `call_operator` is the case in which a call leaves them as they are (lvalue
  arguments, or types whose move is a copy, as the `int` of the tests), and the
  two agree there (`call_operator_forward_id`).  `invokeAction` forwards once.
* `std::cout` is the field `cout` of `Env`, one element per line written.
* The field `calls` of `Env` is a ghost log: one record per callable that was
  really entered, with the address of the `std::function`, the arguments and the
  outcome.  No operation reads it.
* What leaves an operation other than by a normal return is recorded in
  `Completed.raised`: `std::bad_function_call` (calling an empty
  `std::function`) or the dereference of a null pointer (undefined behaviour,
  rendered as an abnormal end).
* The SFINAE pair `select_actuate` is selected by the flag `isVoid`; for a void
  signature the model takes `R := Unit` and never appends to `results`.
* `std::map<std::string, actionT*>` is an association list in which `find` takes
  the first entry of a key, `emplace` inserts only when the key is absent and
  `erase` deletes the key; no operation of the header observes the position of
  a key.
-/

namespace untangle

/-- The exception `invalid_action`: it carries the message text `what`. -/
structure invalid_action where
  what : String
  deriving DecidableEq, Repr

/-- The address of a `std::function` object in the caller's storage. -/
abbrev Addr := Nat

/-- The pointer type `actionT*`; `none` is `nullptr`. -/
abbrev Ptr := Option Addr

/-- How the call of a callable ends: it returns, or it throws `invalid_action`. -/
inductive Outcome (R : Type) where
  | returned (r : R)
  | raised (ia : invalid_action)
  deriving DecidableEq, Repr

/-- The target of a non-empty `std::function`: called with arguments in a world,
it ends with an outcome and leaves a world. -/
abbrev Callable (W A R : Type) := A → W → Outcome R × W

/-- Ghost record of one entered call. -/
structure CallRecord (A R : Type) where
  action : Addr
  args : A
  outcome : Outcome R
  deriving DecidableEq, Repr

/-- Everything outside the actuator object. -/
structure Env (W A R : Type) where
  heap : Addr → Option (Callable W A R)
  world : W
  cout : List String
  calls : List (CallRecord A R)

/-- What can propagate out of an expression of the header. -/
inductive Thrown where
  | invalid (ia : invalid_action)
  | bad_function_call
  | null_dereference
  deriving DecidableEq, Repr

/-- The type `mapActionsT`. -/
abbrev mapActionsT := List (String × Ptr)

/-- The member `std::map::find`, as the mapped pointer when the key is there. -/
def map_find : mapActionsT → String → Option Ptr
  | [], _ => none
  | (k, p) :: rest, name => if k = name then some p else map_find rest name

/-- The member `std::map::erase(key)`. -/
def map_erase (m : mapActionsT) (name : String) : mapActionsT :=
  m.filter (fun e => !decide (e.1 = name))

/-- The member `std::map::emplace`: nothing happens when the key is present. -/
def map_emplace (m : mapActionsT) (name : String) (p : Ptr) : mapActionsT :=
  match map_find m name with
  | some _ => m
  | none => m ++ [(name, p)]

/-- Construction of a `std::map` from an initializer list: the elements are
inserted one after the other, an element with a key already present is skipped. -/
def map_of_list (l : List (String × Ptr)) : mapActionsT :=
  l.foldl (fun m e => map_emplace m e.1 e.2) []

/-- The struct `actuator<actionT>`: its three data members. -/
structure actuator (R : Type) where
  actions : List Ptr
  mapActions : mapActionsT
  results : List R

/-- The default constructor `actuator() = default`. -/
def actuator.default (R : Type) : actuator R := ⟨[], [], []⟩

/-- The end of a member function: what propagated to the caller (if anything),
the outside and the object. -/
structure Completed (W A R : Type) where
  raised : Option Thrown
  env : Env W A R
  self : actuator R

/-- The expression `(*action)(args...)`: dereference the pointer and call the
`std::function` found there. -/
def invoke {W A R : Type} (env : Env W A R) (action : Ptr) (args : A) :
    Except Thrown R × Env W A R :=
  match action with
  | none => (.error .null_dereference, env)
  | some a =>
    match env.heap a with
    | none => (.error .bad_function_call, env)
    | some f =>
      let res := f args env.world
      let env1 : Env W A R :=
        { env with world := res.2, calls := env.calls ++ [⟨a, args, res.1⟩] }
      match res.1 with
      | .returned r => (.ok r, env1)
      | .raised ia => (.error (.invalid ia), env1)

/-- The two private overloads `select_actuate`: for a void result the action is
only called, otherwise its result is pushed back to `results`. -/
def select_actuate {W A R : Type} (isVoid : Bool) (self : actuator R) (env : Env W A R)
    (action : Ptr) (args : A) : Option Thrown × Env W A R × actuator R :=
  match invoke env action args with
  | (.ok r, env1) =>
    (none, env1, if isVoid then self else { self with results := self.results ++ [r] })
  | (.error t, env1) => (some t, env1, self)

/-- The range-for of `operator()` over the remaining entries, for arguments that
the call of an entry leaves as they are; `call_operator_loop_forward` is the general
case. -/
def call_operator_loop {W A R : Type} (isVoid : Bool) (args : A) :
    List Ptr → Env W A R → actuator R → Completed W A R
  | [], env, self => ⟨none, env, self⟩
  | none :: rest, env, self => call_operator_loop isVoid args rest env self
  | some a :: rest, env, self =>
    match select_actuate isVoid self env (some a) args with
    | (none, env1, self1) => call_operator_loop isVoid args rest env1 self1
    | (some (.invalid ia), env1, self1) =>
      call_operator_loop isVoid args rest
        { env1 with cout := env1.cout ++ [ia.what], heap := Function.update env1.heap a none }
        self1
    | (some t, env1, self1) => ⟨some t, env1, self1⟩

/-- The call `remove_if([](const auto& action) { return (*action == nullptr); })`
on a list of pointers; `none` when a null pointer is dereferenced. -/
def remove_if_empty {W A R : Type} (heap : Addr → Option (Callable W A R)) :
    List Ptr → Option (List Ptr)
  | [] => some []
  | none :: _ => none
  | some a :: rest =>
    match remove_if_empty heap rest with
    | none => none
    | some l => some (if (heap a).isNone then l else some a :: l)

/-- The call operator `operator()(Args&&... args)`, for arguments that the call of
an entry leaves as they are; `call_operator_forward` is the general case. -/
def call_operator {W A R : Type} (isVoid : Bool) (self : actuator R) (env : Env W A R)
    (args : A) : Completed W A R :=
  let self0 : actuator R := { self with results := [] }
  match call_operator_loop isVoid args self0.actions env self0 with
  | ⟨some t, env1, self1⟩ => ⟨some t, env1, self1⟩
  | ⟨none, env1, self1⟩ =>
    match remove_if_empty env1.heap self1.actions with
    | none => ⟨some .null_dereference, env1, self1⟩
    | some l => ⟨none, env1, { self1 with actions := l }⟩

/-- The range-for of `operator()` over the remaining entries, with the forwarding
rendered: the statement `select_actuate(action, std::forward<Args>(args)...)` is
executed for every non-null entry with the arguments as the calls before left them,
and leaves `moved args` to the entries after it, whether the call returned or threw
`invalid_action`. -/
def call_operator_loop_forward {W A R : Type} (moved : A → A) (isVoid : Bool) :
    List Ptr → A → Env W A R → actuator R → Completed W A R
  | [], _, env, self => ⟨none, env, self⟩
  | none :: rest, args, env, self => call_operator_loop_forward moved isVoid rest args env self
  | some a :: rest, args, env, self =>
    match select_actuate isVoid self env (some a) args with
    | (none, env1, self1) =>
      call_operator_loop_forward moved isVoid rest (moved args) env1 self1
    | (some (.invalid ia), env1, self1) =>
      call_operator_loop_forward moved isVoid rest (moved args)
        { env1 with cout := env1.cout ++ [ia.what], heap := Function.update env1.heap a none }
        self1
    | (some t, env1, self1) => ⟨some t, env1, self1⟩

/-- The call operator `operator()(Args&&... args)` with the forwarding rendered. -/
def call_operator_forward {W A R : Type} (moved : A → A) (isVoid : Bool) (self : actuator R)
    (env : Env W A R) (args : A) : Completed W A R :=
  let self0 : actuator R := { self with results := [] }
  match call_operator_loop_forward moved isVoid self0.actions args env self0 with
  | ⟨some t, env1, self1⟩ => ⟨some t, env1, self1⟩
  | ⟨none, env1, self1⟩ =>
    match remove_if_empty env1.heap self1.actions with
    | none => ⟨some .null_dereference, env1, self1⟩
    | some l => ⟨none, env1, { self1 with actions := l }⟩

/-- The member `invokeAction(std::string name, Args&&... args)`. -/
def invokeAction {W A R : Type} (isVoid : Bool) (self : actuator R) (env : Env W A R)
    (name : String) (args : A) : Completed W A R :=
  let self0 : actuator R := { self with results := [] }
  match map_find self0.mapActions name with
  | none => ⟨none, env, self0⟩
  | some p =>
    match select_actuate isVoid self0 env p args with
    | (none, env1, self1) => ⟨none, env1, self1⟩
    | (some (.invalid ia), env1, self1) =>
      ⟨none, { env1 with cout := env1.cout ++ [ia.what] },
        { self1 with mapActions := map_erase self1.mapActions name }⟩
    | (some t, env1, self1) => ⟨some t, env1, self1⟩

/-- The member `add(std::string name, actionT* action)`. -/
def add_named {R : Type} (self : actuator R) (name : String) (action : Ptr) : actuator R :=
  { self with mapActions := map_emplace self.mapActions name action }

/-- The member `remove(const actionT* action)`. -/
def remove {R : Type} (self : actuator R) (action : Ptr) : actuator R :=
  { self with actions := self.actions.filter (fun a => !decide (action = a)) }

/-- The member `remove(const std::string& name)`. -/
def remove_named {R : Type} (self : actuator R) (name : String) : actuator R :=
  { self with mapActions := map_erase self.mapActions name }

/-- The member `is_connected()`. -/
def is_connected {R : Type} (self : actuator R) : Bool :=
  !self.actions.isEmpty || !self.mapActions.isEmpty

/-- The member `has_action(std::string name)`. -/
def has_action {R : Type} (self : actuator R) (name : String) : Bool :=
  (map_find self.mapActions name).isSome

/-- The free function `connect(actionT& A1, Actions&... An)`: the arguments are
references, so every pointer stored is the address of an object. -/
def connect {W A R : Type} (env : Env W A R) (A1 : Addr) (An : List Addr) :
    Completed W A R :=
  let act : actuator R := { actuator.default R with actions := (A1 :: An).map some }
  match remove_if_empty env.heap act.actions with
  | none => ⟨some .null_dereference, env, act⟩
  | some l => ⟨none, env, { act with actions := l }⟩

/-- The free function `removeEmptyActions`: the entries whose mapped pointer
compares equal to `nullptr` are collected, then erased. -/
def removeEmptyActions {R : Type} (act : actuator R) : actuator R :=
  let removable := act.mapActions.filter (fun e => e.2.isNone)
  { act with mapActions :=
      removable.foldl (fun m e => m.filter (fun x => !decide (x.1 = e.1))) act.mapActions }

/-- The free function `connect(std::pair<keyT, actionT*> A1, Actions... An)`. -/
def connect_named {R : Type} (A1 : String × Ptr) (An : List (String × Ptr)) : actuator R :=
  let act : actuator R := { actuator.default R with mapActions := map_of_list (A1 :: An) }
  removeEmptyActions act

/-- The checked binder `bind(const std::shared_ptr<classT>& obj, T classT::* method)`.
The lambda keeps a reference to the caller's shared pointer: `obj` reads it in the
world of the call, `none` when it no longer holds a target. -/
def bind {W O A R : Type} (obj : W → Option O) (method : O → A → W → R × W) :
    Option (Callable W A R) :=
  some (fun args w =>
    match obj w with
    | some o => let res := method o args w; (.returned res.1, res.2)
    | none => (.raised ⟨"bind::method: invalid object"⟩, w))

/-- The unchecked binder `bind(classT* obj, T classT::* method)`; the assertion
`obj != nullptr` is the type of `obj`. -/
def bind_unchecked {W O A R : Type} (obj : O) (method : O → A → W → R × W) :
    Option (Callable W A R) :=
  some (fun args w => let res := method obj args w; (.returned res.1, res.2))

/-- The copy assignment `operator=(const actuator& other)`.  The actuators are
objects of a store, named by their identity, so that `other` may be the object
assigned to; the four statements are executed one after the other, each reading
the store the previous one left. -/
def operator_assign {R : Type} (store : Nat → actuator R) (self other : Nat) :
    Nat → actuator R :=
  let s1 := Function.update store self { store self with actions := [] }
  let s2 := Function.update s1 self { s1 self with mapActions := [] }
  let s3 := Function.update s2 self { s2 self with actions := (s2 other).actions }
  Function.update s3 self { s3 self with mapActions := (s3 other).mapActions }

/-- The value a call returned, if it returned. -/
def Outcome.value? {R : Type} : Outcome R → Option R
  | .returned r => some r
  | .raised _ => none

/-- The message of the `invalid_action` a call threw, if it threw. -/
def Outcome.message? {R : Type} : Outcome R → Option String
  | .returned _ => none
  | .raised ia => some ia.what

/-- Whether the call threw `invalid_action`. -/
def Outcome.isRaised {R : Type} : Outcome R → Bool
  | .returned _ => false
  | .raised _ => true

/-- The records that were appended to the ghost log between two moments. -/
def new_calls {W A R : Type} (before after : Env W A R) : List (CallRecord A R) :=
  after.calls.drop before.calls.length

/-- Whether, among the given records, a call through the pointer `p` threw. -/
def raised_in {A R : Type} (recs : List (CallRecord A R)) (p : Ptr) : Bool :=
  recs.any (fun r => decide (some r.action = p) && r.outcome.isRaised)

/-- The pointer is not null and the `std::function` it points to is not empty. -/
def nonempty_at {W A R : Type} (heap : Addr → Option (Callable W A R)) : Ptr → Bool
  | none => false
  | some a => (heap a).isSome

/-- How the call of the action stored at `a` would end now; `none` when the
`std::function` there is empty. -/
def call_outcome {W A R : Type} (env : Env W A R) (a : Addr) (args : A) : Option (Outcome R) :=
  (env.heap a).map (fun f => (f args env.world).1)

/-! ## The setting of the tests

Three shared pointers `t`, `c`, `s` (a triangle, a circle, a square), each holding
the height of its shape while it has one, and actions bound to them by the checked
binder. -/

/-- The shared pointers of the tests; `none` after `reset()`. -/
structure Shapes where
  t : Option Int
  c : Option Int
  s : Option Int
  deriving DecidableEq, Repr

/-- The member `rotate(int angle) const`, which only prints. -/
def rotate (_height : Int) (_angle : Int) (w : Shapes) : Unit × Shapes := ((), w)

/-- The member `height_out()`. -/
def height_out (height : Int) (_ : Unit) (w : Shapes) : Int × Shapes := (height, w)

/-- Storage with `action1`, `action2`, `action3` of `test_invalid_action` at the
addresses 1, 2, 3; every other address holds an empty `std::function`. -/
def rotate_actions : Addr → Option (Callable Shapes Int Unit)
  | 1 => bind (fun w => w.t) rotate
  | 2 => bind (fun w => w.c) rotate
  | 3 => bind (fun w => w.s) rotate
  | _ => none

/-- Storage with `action4`, `action5`, `action6` of `test_extract_results` at the
addresses 4, 5, 6; every other address holds an empty `std::function`. -/
def height_actions : Addr → Option (Callable Shapes Unit Int)
  | 4 => bind (fun w => w.t) height_out
  | 5 => bind (fun w => w.c) height_out
  | 6 => bind (fun w => w.s) height_out
  | _ => none

/-- The moment after `c.reset()` in `test_invalid_action`. -/
def env_rotate : Env Shapes Int Unit :=
  ⟨rotate_actions, ⟨some 10, none, some 30⟩, [], []⟩

/-- The value-returning actions, with the circle destroyed. -/
def env_height : Env Shapes Unit Int :=
  ⟨height_actions, ⟨some 10, none, some 30⟩, [], []⟩

/-- The storage of `env_rotate` after `action2 = nullptr`. -/
def env_rotate_emptied : Env Shapes Int Unit :=
  { env_rotate with heap := Function.update rotate_actions 2 none }

/-- A member `void take(std::string text)` of a receiver: it takes its argument by
value and notes what it received; the world is the list of the texts noted. -/
def take (_receiver : Unit) (text : String) (w : List String) : Unit × List String :=
  ((), w ++ [text])

/-- Storage with two actions bound by the unchecked binder to the member `take`. -/
def take_actions : Addr → Option (Callable (List String) String Unit)
  | 1 => bind_unchecked () take
  | 2 => bind_unchecked () take
  | _ => none

/-- The two receiving actions, nothing noted yet. -/
def env_take : Env (List String) String Unit := ⟨take_actions, [], [], []⟩

/-- What a call that takes a `std::string` by value leaves of an rvalue argument:
the moved-from string, which the library implementations leave empty. -/
def moved_from_string (_ : String) : String := ""

theorem select_actuate_empty {W A R : Type} (isVoid : Bool) (self : actuator R)
    (env : Env W A R) (a : Addr) (args : A) (h : env.heap a = none) :
    select_actuate isVoid self env (some a) args = (some .bad_function_call, env, self) := by
  simp [select_actuate, invoke, h]

theorem select_actuate_returned {W A R : Type} (isVoid : Bool) (self : actuator R)
    (env : Env W A R) (a : Addr) (args : A) (f : Callable W A R) (r : R)
    (h : env.heap a = some f) (hr : (f args env.world).1 = .returned r) :
    select_actuate isVoid self env (some a) args =
      (none,
        { env with world := (f args env.world).2,
                   calls := env.calls ++ [⟨a, args, .returned r⟩] },
        if isVoid then self else { self with results := self.results ++ [r] }) := by
  simp [select_actuate, invoke, h, hr]

theorem select_actuate_raised {W A R : Type} (isVoid : Bool) (self : actuator R)
    (env : Env W A R) (a : Addr) (args : A) (f : Callable W A R) (ia : invalid_action)
    (h : env.heap a = some f) (hr : (f args env.world).1 = .raised ia) :
    select_actuate isVoid self env (some a) args =
      (some (.invalid ia),
        { env with world := (f args env.world).2,
                   calls := env.calls ++ [⟨a, args, .raised ia⟩] },
        self) := by
  simp [select_actuate, invoke, h, hr]

theorem new_calls_append {W A R : Type} (env env1 : Env W A R) (recs : List (CallRecord A R))
    (h : env1.calls = env.calls ++ recs) : new_calls env env1 = recs := by
  simp [new_calls, h]

/-! ## The loop of `operator()` -/

/-- Whatever the registry holds, the loop only appends to the ghost log and to
`std::cout`, leaves both registries alone, and appends to `results` the values of
the calls that returned (nothing for a void signature). -/
theorem call_operator_loop_log {W A R : Type} (isVoid : Bool) (args : A) (ps : List Ptr) :
    ∀ (env : Env W A R) (self : actuator R),
      ∃ recs : List (CallRecord A R),
        (call_operator_loop isVoid args ps env self).env.calls = env.calls ++ recs ∧
        (call_operator_loop isVoid args ps env self).self.actions = self.actions ∧
        (call_operator_loop isVoid args ps env self).self.mapActions = self.mapActions ∧
        (call_operator_loop isVoid args ps env self).self.results =
          self.results ++ (if isVoid then [] else recs.filterMap (fun r => r.outcome.value?)) ∧
        (call_operator_loop isVoid args ps env self).env.cout =
          env.cout ++ recs.filterMap (fun r => r.outcome.message?) ∧
        (∀ r ∈ recs, some r.action ∈ ps ∧ r.args = args) := by
  induction ps with
  | nil => intro env self; exact ⟨[], by simp [call_operator_loop]⟩
  | cons p rest ih =>
    intro env self
    cases p with
    | none =>
      obtain ⟨recs, h1, h2, h3, h4, h5, h6⟩ := ih env self
      refine ⟨recs, ?_⟩
      simp only [call_operator_loop]
      exact ⟨h1, h2, h3, h4, h5, fun r hr => ⟨List.mem_cons_of_mem _ (h6 r hr).1, (h6 r hr).2⟩⟩
    | some a =>
      cases h : env.heap a with
      | none =>
        refine ⟨[], ?_⟩
        rw [call_operator_loop, select_actuate_empty isVoid self env a args h]
        simp
      | some f =>
        cases hr : (f args env.world).1 with
        | returned r =>
          rw [call_operator_loop, select_actuate_returned isVoid self env a args f r h hr]
          obtain ⟨recs, h1, h2, h3, h4, h5, h6⟩ := ih
            { env with world := (f args env.world).2,
                       calls := env.calls ++ [⟨a, args, .returned r⟩] }
            (if isVoid then self else { self with results := self.results ++ [r] })
          refine ⟨⟨a, args, .returned r⟩ :: recs, ?_⟩
          simp only [] at h1 h2 h3 h4 h5 ⊢
          refine ⟨by simp [h1], ?_, ?_, ?_, ?_, ?_⟩
          · rw [h2]; cases isVoid <;> rfl
          · rw [h3]; cases isVoid <;> rfl
          · rw [h4]; cases isVoid <;> simp [Outcome.value?]
          · rw [h5]; simp [Outcome.message?]
          · intro x hx
            rcases List.mem_cons.1 hx with rfl | hx
            · simp
            · exact ⟨List.mem_cons_of_mem _ (h6 x hx).1, (h6 x hx).2⟩
        | raised ia =>
          rw [call_operator_loop, select_actuate_raised isVoid self env a args f ia h hr]
          obtain ⟨recs, h1, h2, h3, h4, h5, h6⟩ := ih
            { env with world := (f args env.world).2,
                       calls := env.calls ++ [⟨a, args, .raised ia⟩],
                       cout := env.cout ++ [ia.what],
                       heap := Function.update env.heap a none }
            self
          refine ⟨⟨a, args, .raised ia⟩ :: recs, ?_⟩
          simp only [] at h1 h2 h3 h4 h5 ⊢
          refine ⟨by simp [h1], h2, h3, ?_, ?_, ?_⟩
          · rw [h4]; cases isVoid <;> simp [Outcome.value?]
          · rw [h5]; simp [Outcome.message?]
          · intro x hx
            rcases List.mem_cons.1 hx with rfl | hx
            · simp
            · exact ⟨List.mem_cons_of_mem _ (h6 x hx).1, (h6 x hx).2⟩

theorem raised_in_cons {A R : Type} (x : CallRecord A R) (recs : List (CallRecord A R))
    (p : Ptr) :
    raised_in (x :: recs) p = ((decide (some x.action = p) && x.outcome.isRaised) ||
      raised_in recs p) := by
  simp [raised_in]

/-- When every entry is a distinct pointer to a non-empty action, the loop runs to
its end: every entry is called once, in order, and exactly the actions whose call
threw are emptied. -/
theorem call_operator_loop_good {W A R : Type} (isVoid : Bool) (args : A) (ps : List Ptr) :
    ∀ (env : Env W A R) (self : actuator R),
      ps.all (nonempty_at env.heap) = true → ps.Nodup →
      ∃ recs : List (CallRecord A R),
        (call_operator_loop isVoid args ps env self).raised = none ∧
        (call_operator_loop isVoid args ps env self).env.calls = env.calls ++ recs ∧
        recs.map (fun r => some r.action) = ps ∧
        (∀ a, (call_operator_loop isVoid args ps env self).env.heap a =
          if raised_in recs (some a) then none else env.heap a) := by
  induction ps with
  | nil => intro env self _ _; exact ⟨[], by simp [call_operator_loop, raised_in]⟩
  | cons p rest ih =>
    intro env self hall hnd
    have hrest : rest.all (nonempty_at env.heap) = true := by
      simp only [List.all_cons, Bool.and_eq_true] at hall; exact hall.2
    have hp : nonempty_at env.heap p = true := by
      simp only [List.all_cons, Bool.and_eq_true] at hall; exact hall.1
    have hnd_rest : rest.Nodup := (List.nodup_cons.1 hnd).2
    have hnot : p ∉ rest := (List.nodup_cons.1 hnd).1
    cases p with
    | none => simp [nonempty_at] at hp
    | some a =>
      cases h : env.heap a with
      | none => simp [nonempty_at, h] at hp
      | some f =>
        cases hr : (f args env.world).1 with
        | returned r =>
          rw [call_operator_loop, select_actuate_returned isVoid self env a args f r h hr]
          obtain ⟨recs, h1, h2, h3, h4⟩ := ih
            { env with world := (f args env.world).2,
                       calls := env.calls ++ [⟨a, args, .returned r⟩] }
            (if isVoid then self else { self with results := self.results ++ [r] })
            hrest hnd_rest
          refine ⟨⟨a, args, .returned r⟩ :: recs, h1, ?_, ?_, ?_⟩
          · rw [h2]; simp
          · simp [h3]
          · intro b
            rw [h4 b, raised_in_cons]
            simp [Outcome.isRaised]
        | raised ia =>
          rw [call_operator_loop, select_actuate_raised isVoid self env a args f ia h hr]
          have hrest2 : rest.all (nonempty_at (Function.update env.heap a none)) = true := by
            rw [List.all_eq_true] at hrest ⊢
            intro q hq
            have hq1 := hrest q hq
            cases q with
            | none => simp [nonempty_at] at hq1
            | some b =>
              have hba : b ≠ a := by
                intro hEq; subst hEq; exact hnot hq
              simpa [nonempty_at, Function.update_noteq hba] using hq1
          obtain ⟨recs, h1, h2, h3, h4⟩ := ih
            { env with world := (f args env.world).2,
                       calls := env.calls ++ [⟨a, args, .raised ia⟩],
                       cout := env.cout ++ [ia.what],
                       heap := Function.update env.heap a none }
            self hrest2 hnd_rest
          refine ⟨⟨a, args, .raised ia⟩ :: recs, h1, ?_, ?_, ?_⟩
          · rw [h2]; simp
          · simp [h3]
          · intro b
            rw [h4 b, raised_in_cons]
            by_cases hba : b = a
            · subst hba; simp [Outcome.isRaised]
            · have hab : a ≠ b := fun e => hba e.symm
              simp [Outcome.isRaised, Function.update_noteq hba, hab]

/-- On a list of non-null pointers `remove_if` keeps the pointers to non-empty
actions, in order. -/
theorem remove_if_empty_of_nonnull {W A R : Type} (heap : Addr → Option (Callable W A R))
    (ps : List Ptr) (h : ∀ p ∈ ps, p ≠ none) :
    remove_if_empty heap ps = some (ps.filter (nonempty_at heap)) := by
  induction ps with
  | nil => rfl
  | cons p rest ih =>
    have ihr := ih (fun q hq => h q (List.mem_cons_of_mem _ hq))
    cases p with
    | none => exact absurd rfl (h none (List.mem_cons_self _ _))
    | some a =>
      simp only [remove_if_empty, ihr]
      cases hh : heap a <;> simp [List.filter_cons, nonempty_at, hh]

/-! ## The call operator as a whole -/

/-- The outside and the members `mapActions`, `results` after `operator()` are
those the loop left; the final `remove_if` only touches `actions`. -/
theorem call_operator_after_loop {W A R : Type} (isVoid : Bool) (self : actuator R)
    (env : Env W A R) (args : A) :
    (call_operator isVoid self env args).env =
      (call_operator_loop isVoid args self.actions env { self with results := [] }).env ∧
    (call_operator isVoid self env args).self.results =
      (call_operator_loop isVoid args self.actions env { self with results := [] }).self.results ∧
    (call_operator isVoid self env args).self.mapActions =
      (call_operator_loop isVoid args self.actions env
        { self with results := [] }).self.mapActions := by
  unfold call_operator
  simp only []
  generalize call_operator_loop isVoid args self.actions env { self with results := [] } = L
  obtain ⟨raised, env1, self1⟩ := L
  cases raised with
  | some t => simp
  | none =>
    simp only []
    cases remove_if_empty env1.heap self1.actions <;> simp

/-- When the loop ran to its end over non-null pointers, `operator()` returns and
the registry is what `remove_if` keeps. -/
theorem call_operator_of_loop {W A R : Type} (isVoid : Bool) (self : actuator R)
    (env : Env W A R) (args : A)
    (hnone : (call_operator_loop isVoid args self.actions env
      { self with results := [] }).raised = none)
    (hact : (call_operator_loop isVoid args self.actions env
      { self with results := [] }).self.actions = self.actions)
    (hnn : ∀ p ∈ self.actions, p ≠ none) :
    (call_operator isVoid self env args).raised = none ∧
    (call_operator isVoid self env args).self.actions =
      self.actions.filter (nonempty_at (call_operator_loop isVoid args self.actions env
        { self with results := [] }).env.heap) := by
  unfold call_operator
  simp only []
  generalize call_operator_loop isVoid args self.actions env { self with results := [] } = L
    at hnone hact ⊢
  obtain ⟨raised, env1, self1⟩ := L
  simp only [] at hnone hact
  subst hnone
  have hnn1 : ∀ p ∈ self1.actions, p ≠ none := by rw [hact]; exact hnn
  simp only [remove_if_empty_of_nonnull env1.heap self1.actions hnn1]
  simp [hact]

/-- The ghost log, `std::cout`, `results` and the named registry after any
broadcast call, whether it returns or not. -/
theorem call_operator_log {W A R : Type} (isVoid : Bool) (self : actuator R)
    (env : Env W A R) (args : A) :
    ∃ recs : List (CallRecord A R),
      (call_operator isVoid self env args).env.calls = env.calls ++ recs ∧
      (call_operator isVoid self env args).self.mapActions = self.mapActions ∧
      (call_operator isVoid self env args).self.results =
        (if isVoid then [] else recs.filterMap (fun r => r.outcome.value?)) ∧
      (call_operator isVoid self env args).env.cout =
        env.cout ++ recs.filterMap (fun r => r.outcome.message?) ∧
      (∀ r ∈ recs, some r.action ∈ self.actions ∧ r.args = args) := by
  obtain ⟨e1, e2, e3⟩ := call_operator_after_loop isVoid self env args
  obtain ⟨recs, h1, _, h3, h4, h5, h6⟩ :=
    call_operator_loop_log isVoid args self.actions env { self with results := [] }
  refine ⟨recs, ?_, ?_, ?_, ?_, h6⟩
  · rw [e1, h1]
  · rw [e3, h3]
  · rw [e2, h4]; simp
  · rw [e1, h5]

theorem nonnull_of_all_nonempty {W A R : Type} (heap : Addr → Option (Callable W A R))
    (ps : List Ptr) (h : ps.all (nonempty_at heap) = true) : ∀ p ∈ ps, p ≠ none := by
  intro p hp hEq
  subst hEq
  have := (List.all_eq_true.1 h) none hp
  simp [nonempty_at] at this

/-- A broadcast over distinct pointers to non-empty actions: it returns, every
entry was called once and in order, and the registry keeps the entries whose call
did not throw. -/
theorem call_operator_good {W A R : Type} (isVoid : Bool) (self : actuator R)
    (env : Env W A R) (args : A)
    (hall : self.actions.all (nonempty_at env.heap) = true) (hnd : self.actions.Nodup) :
    ∃ recs : List (CallRecord A R),
      (call_operator isVoid self env args).raised = none ∧
      (call_operator isVoid self env args).env.calls = env.calls ++ recs ∧
      recs.map (fun r => some r.action) = self.actions ∧
      (call_operator isVoid self env args).self.actions =
        self.actions.filter (fun p => !raised_in recs p) ∧
      (∀ a, (call_operator isVoid self env args).env.heap a =
        if raised_in recs (some a) then none else env.heap a) := by
  obtain ⟨recs, h1, h2, h3, h4⟩ :=
    call_operator_loop_good isVoid args self.actions env { self with results := [] } hall hnd
  obtain ⟨_, _, g2, _, _, _⟩ :=
    call_operator_loop_log isVoid args self.actions env { self with results := [] }
  obtain ⟨e1, _, _⟩ := call_operator_after_loop isVoid self env args
  obtain ⟨k1, k2⟩ := call_operator_of_loop isVoid self env args h1 g2
    (nonnull_of_all_nonempty env.heap self.actions hall)
  refine ⟨recs, k1, ?_, h3, ?_, ?_⟩
  · rw [e1, h2]
  · rw [k2]
    apply List.filter_congr
    intro p hp
    have hp1 := (List.all_eq_true.1 hall) p hp
    cases p with
    | none => simp [nonempty_at] at hp1
    | some a =>
      simp only [nonempty_at, h4 a]
      simp only [nonempty_at] at hp1
      cases hri : raised_in recs (some a) <;> simp [hp1]
  · intro a; rw [e1]; exact h4 a

/-! ## Broadcast -/

/-- For arguments that the call of an entry leaves as they are: when the ordered
registry holds pairwise distinct pointers to non-empty actions, a broadcast call
enters the callable of every entry exactly once, in the order of the registry, each
with the arguments of the broadcast; an `invalid_action` thrown by one entry does not
stop the later ones. -/
theorem broadcast_calls_entries_in_order {W A R : Type} (isVoid : Bool) (self : actuator R)
    (env : Env W A R) (args : A)
    (hall : self.actions.all (nonempty_at env.heap) = true) (hnd : self.actions.Nodup) :
    (call_operator isVoid self env args).raised = none ∧
    (new_calls env (call_operator isVoid self env args).env).map
        (fun r => ((some r.action : Ptr), r.args)) =
      self.actions.map (fun p => (p, args)) := by
  obtain ⟨recs, h1, h2, h3, _, _⟩ := call_operator_good isVoid self env args hall hnd
  obtain ⟨recs1, g1, _, _, _, g5⟩ := call_operator_log isVoid self env args
  have e : recs1 = recs := List.append_cancel_left (g1.symm.trans h2)
  subst e
  rw [new_calls_append env _ recs1 h2]
  refine ⟨h1, ?_⟩
  rw [← h3, List.map_map]
  apply List.map_congr_left
  intro r hr
  simp [(g5 r hr).2]

/-- The order of the calls in the setting of `test_invalid_action`: the destroyed
circle in the middle does not stop the call of the third action. -/
theorem broadcast_calls_entries_in_order_witness :
    ([some 1, some 2, some 3] : List Ptr).all (nonempty_at env_rotate.heap) = true ∧
    ([some 1, some 2, some 3] : List Ptr).Nodup ∧
    (new_calls env_rotate (call_operator true
        (⟨[some 1, some 2, some 3], [], []⟩ : actuator Unit) env_rotate 60).env).map
        (fun r => ((some r.action : Ptr), r.args)) =
      [(some 1, 60), (some 2, 60), (some 3, 60)] :=
  ⟨by decide, by decide,
    (broadcast_calls_entries_in_order true (⟨[some 1, some 2, some 3], [], []⟩ : actuator Unit)
      env_rotate 60 (by decide) (by decide)).2⟩

/-- With a `moved` that changes nothing the loop with forwarding is the loop for
arguments left as they are. -/
theorem call_operator_loop_forward_id {W A R : Type} (isVoid : Bool) (args : A)
    (ps : List Ptr) :
    ∀ (env : Env W A R) (self : actuator R),
      call_operator_loop_forward id isVoid ps args env self =
        call_operator_loop isVoid args ps env self := by
  induction ps with
  | nil => intro env self; rfl
  | cons p rest ih =>
    intro env self
    cases p with
    | none => simp only [call_operator_loop_forward, call_operator_loop, ih]
    | some a =>
      simp only [call_operator_loop_forward, call_operator_loop, id_eq]
      split <;> simp_all

/-- With a `moved` that changes nothing the call operator with forwarding is the call
operator for arguments left as they are. -/
theorem call_operator_forward_id {W A R : Type} (isVoid : Bool) (self : actuator R)
    (env : Env W A R) (args : A) :
    call_operator_forward id isVoid self env args = call_operator isVoid self env args := by
  simp only [call_operator_forward, call_operator, call_operator_loop_forward_id]

/-- C2 (broadcast order), evaluated where it fails: two distinct non-empty actions
bound to a member that takes a `std::string` by value, and a broadcast called with
the rvalue `std::string("abc")`.  Both entries are entered once and in order, but the
call of the first entry moves from the argument that `operator()` forwards again to
the second: the first action receives "abc", the second the moved-from, empty
string. -/
theorem broadcast_forwards_moved_from_argument :
    ([some 1, some 2] : List Ptr).all (nonempty_at env_take.heap) = true ∧
    ([some 1, some 2] : List Ptr).Nodup ∧
    (call_operator_forward moved_from_string true (⟨[some 1, some 2], [], []⟩ : actuator Unit)
      env_take "abc").raised = none ∧
    (new_calls env_take (call_operator_forward moved_from_string true
      (⟨[some 1, some 2], [], []⟩ : actuator Unit) env_take "abc").env).map
        (fun r => (r.action, r.args)) = [(1, "abc"), (2, "")] ∧
    (call_operator_forward moved_from_string true (⟨[some 1, some 2], [], []⟩ : actuator Unit)
      env_take "abc").env.world = ["abc", ""] := by
  decide

/-- C3 (result collection): for a non-void signature and whatever `results` held
before, after a broadcast call `results` is the list of the values returned by the
calls of this broadcast that returned, in call order; a call that threw contributes
nothing. -/
theorem broadcast_results_are_returned_values {W A R : Type} (self : actuator R)
    (env : Env W A R) (args : A) :
    (call_operator false self env args).self.results =
      (new_calls env (call_operator false self env args).env).filterMap
        (fun r => r.outcome.value?) := by
  obtain ⟨recs, g1, _, g3, _, _⟩ := call_operator_log false self env args
  rw [new_calls_append env _ recs g1, g3]
  simp

/-- C4 (no error escapes broadcast), evaluated where it fails: the registry of
`test_add` with the second action added once more, all entries pointing to non-empty
actions, and the circle destroyed before the call.  The first call through the
second action throws `invalid_action` and empties it; the entry added later passes
the test `if (action)` of the pointer, the empty `std::function` is called and
`std::bad_function_call` reaches the caller. -/
theorem broadcast_duplicate_dead_binding_throws :
    ([some 1, some 2, some 3, some 2] : List Ptr).all (nonempty_at env_rotate.heap) = true ∧
    (call_operator true (⟨[some 1, some 2, some 3, some 2], [], []⟩ : actuator Unit)
      env_rotate 60).raised = some Thrown.bad_function_call ∧
    (call_operator true (⟨[some 1, some 2, some 3, some 2], [], []⟩ : actuator Unit)
      env_rotate 60).self.actions = [some 1, some 2, some 3, some 2] := by
  decide

/-- C5 (external invalidation on broadcast), evaluated where it fails: the registry
holds the first action, an action at address 7 that was replaced by an empty
`std::function`, and the third action.  The broadcast calls the first action, then
calls the empty one: `std::bad_function_call` reaches the caller, the third action is
never called and the stale entry is still in the registry. -/
theorem broadcast_emptied_action_throws :
    (env_rotate.heap 7).isNone = true ∧
    (call_operator true (⟨[some 1, some 7, some 3], [], []⟩ : actuator Unit)
      env_rotate 60).raised = some Thrown.bad_function_call ∧
    (new_calls env_rotate (call_operator true
      (⟨[some 1, some 7, some 3], [], []⟩ : actuator Unit) env_rotate 60).env).map
        (fun r => r.action) = [1] ∧
    (call_operator true (⟨[some 1, some 7, some 3], [], []⟩ : actuator Unit)
      env_rotate 60).self.actions = [some 1, some 7, some 3] := by
  decide

/-! ## Bulk construction -/

/-- C6 (bulk construction, ordered): `connect(A1, ..., An)` returns an actuator
whose ordered registry is the addresses of the non-empty arguments, in the order
given and with repetitions, whose named registry and `results` are empty; whatever
happens to the storage afterwards, a broadcast of that actuator only enters actions
that were among the arguments and non-empty at construction. -/
theorem connect_keeps_nonempty_in_order {W A R : Type} (env : Env W A R) (A1 : Addr)
    (An : List Addr) :
    (connect env A1 An).raised = none ∧
    (connect env A1 An).self.actions =
      ((A1 :: An).filter (fun a => (env.heap a).isSome)).map some ∧
    (connect env A1 An).self.mapActions = [] ∧
    (connect env A1 An).self.results = [] ∧
    (∀ (isVoid : Bool) (later : Env W A R) (args : A),
      ∀ r ∈ new_calls later (call_operator isVoid (connect env A1 An).self later args).env,
        r.action ∈ A1 :: An ∧ (env.heap r.action).isSome = true) := by
  have hnn : ∀ p ∈ (A1 :: An).map some, p ≠ none := by
    intro p hp
    obtain ⟨a, _, rfl⟩ := List.mem_map.1 hp
    simp
  have hfil : ((A1 :: An).map some).filter (nonempty_at env.heap) =
      ((A1 :: An).filter (fun a => (env.heap a).isSome)).map some := by
    rw [List.filter_map]; rfl
  have hact : (connect env A1 An).self.actions =
      ((A1 :: An).filter (fun a => (env.heap a).isSome)).map some := by
    simp only [connect, actuator.default, remove_if_empty_of_nonnull env.heap _ hnn, hfil]
  refine ⟨?_, hact, ?_, ?_, ?_⟩
  · simp only [connect, actuator.default, remove_if_empty_of_nonnull env.heap _ hnn]
  · simp only [connect, actuator.default, remove_if_empty_of_nonnull env.heap _ hnn]
  · simp only [connect, actuator.default, remove_if_empty_of_nonnull env.heap _ hnn]
  · intro isVoid later args r hr
    obtain ⟨recs, g1, _, _, _, g5⟩ :=
      call_operator_log isVoid (connect env A1 An).self later args
    rw [new_calls_append later _ recs g1] at hr
    have hmem := (g5 r hr).1
    rw [hact] at hmem
    obtain ⟨a, ha, hEq⟩ := List.mem_map.1 hmem
    have hra : a = r.action := Option.some.inj hEq
    subst hra
    rw [List.mem_filter] at ha
    exact ⟨ha.1, ha.2⟩

/-- C7 (bulk construction, named), evaluated where it fails: `connect` given the
name "circle" with the address of an empty `std::function`.  `removeEmptyActions`
compares the stored pointer with `nullptr`, not the action it points to, so the name
stays in the registry; invoking it then throws `std::bad_function_call`. -/
theorem connect_named_keeps_empty_action :
    (env_rotate.heap 7).isNone = true ∧
    has_action (connect_named ("triangle", some 1) [("circle", some 7)] : actuator Unit)
      "circle" = true ∧
    (invokeAction true (connect_named ("triangle", some 1) [("circle", some 7)] : actuator Unit)
      env_rotate "circle" 20).raised = some Thrown.bad_function_call := by
  decide

/-! ## The named registry -/

theorem map_find_append (m l : mapActionsT) (n : String) :
    map_find (m ++ l) n = (map_find m n).orElse (fun _ => map_find l n) := by
  induction m with
  | nil => simp [map_find]
  | cons e rest ih =>
    obtain ⟨k, p⟩ := e
    by_cases hk : k = n <;> simp [map_find, hk, ih]

theorem map_find_erase (m : mapActionsT) (name n : String) :
    map_find (map_erase m name) n = if n = name then none else map_find m n := by
  induction m with
  | nil => simp [map_erase, map_find]
  | cons e rest ih =>
    obtain ⟨k, p⟩ := e
    unfold map_erase at ih ⊢
    by_cases hk : k = name
    · subst hk
      by_cases hn : n = k
      · subst hn
        simpa [List.filter_cons] using ih
      · have hkn : ¬ k = n := fun e => hn e.symm
        simp [List.filter_cons, ih, hn, map_find, hkn]
    · by_cases hn : n = name
      · subst hn
        simp [List.filter_cons, hk, map_find, ih]
      · by_cases hkn : k = n <;> simp [List.filter_cons, hk, map_find, ih, hn, hkn]

theorem map_find_emplace (m : mapActionsT) (name : String) (p : Ptr) (n : String) :
    map_find (map_emplace m name p) n =
      if n = name then some ((map_find m name).getD p) else map_find m n := by
  unfold map_emplace
  cases h : map_find m name with
  | some q =>
    by_cases hn : n = name
    · subst hn; simp [h]
    · simp [hn]
  | none =>
    rw [map_find_append]
    by_cases hn : n = name
    · subst hn; simp [h, map_find]
    · have hnn : ¬ name = n := fun e => hn e.symm
      cases hm : map_find m n <;> simp [map_find, hn, hnn]

/-- C8, the claim as stated fails: with the name "circle" already mapped to the
second action, `add("circle", &action3)` leaves it mapped to the second action. -/
theorem add_named_does_not_replace :
    map_find (add_named (⟨[], [("circle", some 2)], []⟩ : actuator Unit)
      "circle" (some 3)).mapActions "circle" = some (some 2) ∧
    map_find (add_named (⟨[], [("circle", some 2)], []⟩ : actuator Unit)
      "circle" (some 3)).mapActions "circle" ≠ some (some 3) := by
  decide

/-- C8 as amended: `add(name, action-ref)` inserts only when the name is absent.
Afterwards the name is mapped to the pointer it had before if it was present, and
to the given pointer otherwise; every other name keeps its mapping, and the ordered
registry and `results` are untouched. -/
theorem add_named_inserts_if_absent {R : Type} (self : actuator R) (name : String) (r : Ptr)
    (n : String) :
    map_find (add_named self name r).mapActions n =
      (if n = name then some ((map_find self.mapActions name).getD r)
       else map_find self.mapActions n) ∧
    (add_named self name r).actions = self.actions ∧
    (add_named self name r).results = self.results :=
  ⟨map_find_emplace self.mapActions name r n, rfl, rfl⟩

theorem call_outcome_eq_some {W A R : Type} (env : Env W A R) (a : Addr) (args : A)
    (o : Outcome R) (h : call_outcome env a args = some o) :
    ∃ f, env.heap a = some f ∧ (f args env.world).1 = o := by
  unfold call_outcome at h
  cases hf : env.heap a with
  | none => simp [hf] at h
  | some f => exact ⟨f, rfl, by simpa [hf] using h⟩

/-- C9 (stale auto-removal by name): when the named registry maps `n` to a non-empty
action whose call throws `invalid_action`, `invokeAction(n, args...)` returns, the
message is written to `std::cout`, `has_action(n)` is false afterwards and every
other name is mapped as before. -/
theorem invokeAction_dead_binding_erases_name {W A R : Type} (isVoid : Bool)
    (self : actuator R) (env : Env W A R) (n : String) (args : A) (a : Addr)
    (ia : invalid_action)
    (hfind : map_find self.mapActions n = some (some a))
    (hcall : call_outcome env a args = some (.raised ia)) :
    (invokeAction isVoid self env n args).raised = none ∧
    has_action (invokeAction isVoid self env n args).self n = false ∧
    (∀ m, map_find (invokeAction isVoid self env n args).self.mapActions m =
      if m = n then none else map_find self.mapActions m) ∧
    (invokeAction isVoid self env n args).env.cout = env.cout ++ [ia.what] ∧
    (invokeAction isVoid self env n args).self.actions = self.actions := by
  obtain ⟨f, hf, hr⟩ := call_outcome_eq_some env a args _ hcall
  have hinv : invokeAction isVoid self env n args =
      ⟨none,
        { env with world := (f args env.world).2,
                   calls := env.calls ++ [⟨a, args, .raised ia⟩],
                   cout := env.cout ++ [ia.what] },
        { self with results := [], mapActions := map_erase self.mapActions n }⟩ := by
    unfold invokeAction
    simp only [hfind]
    rw [select_actuate_raised isVoid _ env a args f ia hf hr]
  rw [hinv]
  refine ⟨rfl, ?_, ?_, rfl, rfl⟩
  · simp [has_action, map_find_erase]
  · intro m; exact map_find_erase self.mapActions n m

/-- The named actions "a" (bound to the live triangle) and "b" (bound to the
destroyed circle): invoking "b" erases "b" and keeps "a". -/
theorem invokeAction_dead_binding_erases_name_witness :
    map_find [("a", some 4), ("b", some 5)] "b" = some (some 5) ∧
    call_outcome env_height 5 () = some (.raised ⟨"bind::method: invalid object"⟩) ∧
    has_action (invokeAction false (⟨[], [("a", some 4), ("b", some 5)], []⟩ : actuator Int)
      env_height "b" ()).self "b" = false ∧
    has_action (invokeAction false (⟨[], [("a", some 4), ("b", some 5)], []⟩ : actuator Int)
      env_height "b" ()).self "a" = true :=
  ⟨by decide, by decide,
    (invokeAction_dead_binding_erases_name false
      (⟨[], [("a", some 4), ("b", some 5)], []⟩ : actuator Int) env_height "b" () 5
      ⟨"bind::method: invalid object"⟩ (by decide) (by decide)).2.1,
    by decide⟩

/-- C10 (invoke by name, success): when the named registry maps `n` to a non-empty
action whose call returns `r`, `invokeAction(n, args...)` returns, it entered that
one action once with `args` and no other, `results` is `[r]` for a non-void signature
whatever it held before (and empty for a void one), and neither registry nor
`std::cout` changed. -/
theorem invokeAction_success {W A R : Type} (isVoid : Bool) (self : actuator R)
    (env : Env W A R) (n : String) (args : A) (a : Addr) (r : R)
    (hfind : map_find self.mapActions n = some (some a))
    (hcall : call_outcome env a args = some (.returned r)) :
    (invokeAction isVoid self env n args).raised = none ∧
    new_calls env (invokeAction isVoid self env n args).env = [⟨a, args, .returned r⟩] ∧
    (invokeAction isVoid self env n args).self.results = (if isVoid then [] else [r]) ∧
    (invokeAction isVoid self env n args).self.mapActions = self.mapActions ∧
    (invokeAction isVoid self env n args).self.actions = self.actions ∧
    (invokeAction isVoid self env n args).env.cout = env.cout := by
  obtain ⟨f, hf, hr⟩ := call_outcome_eq_some env a args _ hcall
  have hinv : invokeAction isVoid self env n args =
      ⟨none,
        { env with world := (f args env.world).2,
                   calls := env.calls ++ [⟨a, args, .returned r⟩] },
        if isVoid then { self with results := [] }
        else { self with results := [r] }⟩ := by
    unfold invokeAction
    simp only [hfind]
    rw [select_actuate_returned isVoid _ env a args f r hf hr]
    cases isVoid <;> simp
  rw [hinv]
  refine ⟨rfl, ?_, ?_, ?_, ?_, rfl⟩
  · exact new_calls_append env _ _ rfl
  · cases isVoid <;> rfl
  · cases isVoid <;> rfl
  · cases isVoid <;> rfl

/-- Invoking "a", bound to the live triangle of height 10, with stale content in
`results`: afterwards `results` is `[10]`. -/
theorem invokeAction_success_witness :
    map_find [("a", some 4), ("b", some 5)] "a" = some (some 4) ∧
    call_outcome env_height 4 () = some (.returned 10) ∧
    new_calls env_height (invokeAction false
      (⟨[], [("a", some 4), ("b", some 5)], [7, 8]⟩ : actuator Int) env_height "a" ()).env =
      [⟨4, (), .returned 10⟩] ∧
    (invokeAction false (⟨[], [("a", some 4), ("b", some 5)], [7, 8]⟩ : actuator Int)
      env_height "a" ()).self.results = [10] :=
  ⟨by decide, by decide,
    (invokeAction_success false (⟨[], [("a", some 4), ("b", some 5)], [7, 8]⟩ : actuator Int)
      env_height "a" () 4 10 (by decide) (by decide)).2.1,
    (invokeAction_success false (⟨[], [("a", some 4), ("b", some 5)], [7, 8]⟩ : actuator Int)
      env_height "a" () 4 10 (by decide) (by decide)).2.2.1⟩

/-- C11 (unknown-name invocation): when the name is absent from the named registry,
`invokeAction` returns, enters no action, leaves `results` empty whatever it held,
and changes neither registry nor anything outside the actuator. -/
theorem invokeAction_unknown_name {W A R : Type} (isVoid : Bool) (self : actuator R)
    (env : Env W A R) (n : String) (args : A)
    (habsent : map_find self.mapActions n = none) :
    (invokeAction isVoid self env n args).raised = none ∧
    new_calls env (invokeAction isVoid self env n args).env = [] ∧
    (invokeAction isVoid self env n args).self.results = [] ∧
    (invokeAction isVoid self env n args).self.actions = self.actions ∧
    (invokeAction isVoid self env n args).self.mapActions = self.mapActions ∧
    (invokeAction isVoid self env n args).env.cout = env.cout ∧
    (invokeAction isVoid self env n args).env.world = env.world := by
  have hinv : invokeAction isVoid self env n args = ⟨none, env, { self with results := [] }⟩ := by
    unfold invokeAction
    simp only [habsent]
  rw [hinv]
  exact ⟨rfl, by simp [new_calls], rfl, rfl, rfl, rfl, rfl⟩

/-- Invoking the unknown name "square" on the named actions "a" and "b", with stale
content in `results`. -/
theorem invokeAction_unknown_name_witness :
    map_find [("a", some 4), ("b", some 5)] "square" = none ∧
    (invokeAction false (⟨[some 4], [("a", some 4), ("b", some 5)], [7, 8]⟩ : actuator Int)
      env_height "square" ()).self.results = [] ∧
    new_calls env_height (invokeAction false
      (⟨[some 4], [("a", some 4), ("b", some 5)], [7, 8]⟩ : actuator Int)
      env_height "square" ()).env = [] :=
  ⟨by decide,
    (invokeAction_unknown_name false
      (⟨[some 4], [("a", some 4), ("b", some 5)], [7, 8]⟩ : actuator Int)
      env_height "square" () (by decide)).2.2.1,
    (invokeAction_unknown_name false
      (⟨[some 4], [("a", some 4), ("b", some 5)], [7, 8]⟩ : actuator Int)
      env_height "square" () (by decide)).2.1⟩

/-- C12 (invoke by name on an empty action), evaluated where it fails: the name
"circle" is mapped to the second action, which was replaced by an empty
`std::function` after registration.  `invokeAction` has no test before
`select_actuate`: no callable is entered, but `std::bad_function_call` reaches the
caller. -/
theorem invokeAction_empty_action_throws :
    map_find [("triangle", some 1), ("circle", some 2)] "circle" = some (some 2) ∧
    (env_rotate_emptied.heap 2).isNone = true ∧
    (invokeAction true (⟨[], [("triangle", some 1), ("circle", some 2)], []⟩ : actuator Unit)
      env_rotate_emptied "circle" 20).raised = some Thrown.bad_function_call ∧
    new_calls env_rotate_emptied (invokeAction true
      (⟨[], [("triangle", some 1), ("circle", some 2)], []⟩ : actuator Unit)
      env_rotate_emptied "circle" 20).env = [] := by
  decide

/-! ## The checked binder -/

/-- C13 (checked binder): the action `bind(h, m)` is a non-empty `std::function`
whatever the handle holds when it is bound.  Called in a world where the handle
resolves to a target, it returns what `m` returns on that target with the arguments
and leaves the world `m` left; called in a world where the handle does not resolve,
it throws `invalid_action` with the text "bind::method: invalid object" and leaves
the world as it was, so `m` did not run.  When `m` leaves the handle alone, so does
the call. -/
theorem bind_checked_call {W O A R : Type} (obj : W → Option O)
    (method : O → A → W → R × W) :
    ∃ f : Callable W A R, bind obj method = some f ∧
      (∀ (args : A) (w : W) (o : O), obj w = some o →
        f args w = (Outcome.returned (method o args w).1, (method o args w).2)) ∧
      (∀ (args : A) (w : W), obj w = none →
        f args w = (Outcome.raised ⟨"bind::method: invalid object"⟩, w)) ∧
      (∀ (args : A) (w : W), (∀ o, obj (method o args w).2 = obj w) →
        obj (f args w).2 = obj w) := by
  refine ⟨_, rfl, ?_, ?_, ?_⟩
  · intro args w o h
    simp only [h]
  · intro args w h
    simp only [h]
  · intro args w hm
    cases h : obj w with
    | none => simp only [h]
    | some o =>
      simp only [h]
      rw [hm o, h]

/-! ## Removing and adding entries of the ordered registry -/

/-- C14 (removal by identity): `remove(r)` deletes every entry whose pointer equals
`r` and keeps the other entries in their order; only pointers are compared, the
actions pointed to are not looked at.  The named registry and `results` are
unchanged, and a following broadcast enters no action through `r`. -/
theorem remove_deletes_every_occurrence {W A R : Type} (self : actuator R) (r : Ptr) :
    (remove self r).actions = self.actions.filter (fun p => decide (p ≠ r)) ∧
    r ∉ (remove self r).actions ∧
    (remove self r).mapActions = self.mapActions ∧
    (remove self r).results = self.results ∧
    (∀ (isVoid : Bool) (env : Env W A R) (args : A),
      ∀ x ∈ new_calls env (call_operator isVoid (remove self r) env args).env,
        some x.action ≠ r) := by
  have hact : (remove self r).actions = self.actions.filter (fun p => decide (p ≠ r)) := by
    simp only [remove]
    apply List.filter_congr
    intro p _
    by_cases h : r = p
    · subst h; simp
    · have h2 : ¬ p = r := fun e => h e.symm
      simp [h, h2]
  have hnot : r ∉ (remove self r).actions := by
    rw [hact, List.mem_filter]
    simp
  refine ⟨hact, hnot, rfl, rfl, ?_⟩
  intro isVoid env args x hx
  obtain ⟨recs, g1, _, _, _, g5⟩ := call_operator_log isVoid (remove self r) env args
  rw [new_calls_append env _ recs g1] at hx
  intro hEq
  exact hnot (hEq ▸ (g5 x hx).1)

/-- C15 (idempotent removal): when `r` does not occur in the ordered registry,
`remove(r)` leaves the actuator as it was (both registries and `results`); applying
`remove(r)` a second time changes nothing more. -/
theorem remove_absent_is_noop {R : Type} (self : actuator R) (r : Ptr)
    (habsent : r ∉ self.actions) :
    remove self r = self ∧ remove (remove self r) r = remove self r := by
  have h1 : ∀ (s : actuator R), r ∉ s.actions → remove s r = s := by
    intro s hs
    obtain ⟨acts, m, res⟩ := s
    simp only [remove, actuator.mk.injEq, and_true]
    rw [List.filter_eq_self]
    intro p hp
    have : r ≠ p := fun e => hs (e ▸ hp)
    simp [this]
  refine ⟨h1 self habsent, h1 (remove self r) ?_⟩
  simp [remove, List.mem_filter]

/-- Removing the second action from a registry that holds the first and the third. -/
theorem remove_absent_is_noop_witness :
    (some 2 : Ptr) ∉ ([some 1, some 3] : List Ptr) ∧
    remove (⟨[some 1, some 3], [("a", some 4)], [5]⟩ : actuator Int) (some 2) =
      ⟨[some 1, some 3], [("a", some 4)], [5]⟩ :=
  ⟨by decide,
    (remove_absent_is_noop (⟨[some 1, some 3], [("a", some 4)], [5]⟩ : actuator Int) (some 2)
      (by decide)).1⟩

/-- C17 (assignment is a full replace): for two different actuators `a` and `b` of a
store, after `a = b` both registries of `a` are those of `b`, whatever `a` held
before; `b` and every other actuator are unchanged, and so is `results` of `a`. -/
theorem operator_assign_replaces {R : Type} (store : Nat → actuator R) (a b : Nat)
    (hab : a ≠ b) :
    (operator_assign store a b a).actions = (store b).actions ∧
    (operator_assign store a b a).mapActions = (store b).mapActions ∧
    (operator_assign store a b a).results = (store a).results ∧
    (∀ k, k ≠ a → operator_assign store a b k = store k) := by
  have hba : b ≠ a := fun e => hab e.symm
  refine ⟨?_, ?_, ?_, ?_⟩
  · simp [operator_assign, Function.update_noteq hba]
  · simp [operator_assign, Function.update_noteq hba]
  · simp [operator_assign]
  · intro k hk
    simp [operator_assign, Function.update_noteq hk]

/-- The case of `test_assignment`, with a target that held entries of its own: the
actuator 0 is assigned the actuator 1. -/
theorem operator_assign_replaces_witness :
    (0 : Nat) ≠ 1 ∧
    (operator_assign
      (fun k => if k = 0 then (⟨[some 7], [("x", some 7)], []⟩ : actuator Unit)
        else ⟨[some 1, some 2, some 3], [("y", some 2)], []⟩) 0 1 0).actions =
      [some 1, some 2, some 3] ∧
    (operator_assign
      (fun k => if k = 0 then (⟨[some 7], [("x", some 7)], []⟩ : actuator Unit)
        else ⟨[some 1, some 2, some 3], [("y", some 2)], []⟩) 0 1 0).mapActions =
      [("y", some 2)] :=
  ⟨by decide,
    (operator_assign_replaces
      (fun k => if k = 0 then (⟨[some 7], [("x", some 7)], []⟩ : actuator Unit)
        else ⟨[some 1, some 2, some 3], [("y", some 2)], []⟩) 0 1 (by decide)).1,
    (operator_assign_replaces
      (fun k => if k = 0 then (⟨[some 7], [("x", some 7)], []⟩ : actuator Unit)
        else ⟨[some 1, some 2, some 3], [("y", some 2)], []⟩) 0 1 (by decide)).2.1⟩

theorem map_find_eq_find (l : List (String × Ptr)) (n : String) :
    map_find l n = (l.find? (fun e => decide (e.1 = n))).map (fun e => e.2) := by
  induction l with
  | nil => rfl
  | cons e rest ih =>
    obtain ⟨k, p⟩ := e
    by_cases hk : k = n <;> simp [map_find, List.find?_cons, hk, ih]

theorem map_find_foldl_emplace (l : List (String × Ptr)) :
    ∀ (m : mapActionsT) (n : String),
      map_find (l.foldl (fun m e => map_emplace m e.1 e.2) m) n =
        (map_find m n).orElse (fun _ => map_find l n) := by
  induction l with
  | nil => intro m n; cases h : map_find m n <;> simp [map_find, h]
  | cons e rest ih =>
    intro m n
    obtain ⟨k, p⟩ := e
    simp only [List.foldl_cons, ih, map_find_emplace]
    by_cases hn : n = k
    · subst hn
      cases hm : map_find m n <;> simp [map_find]
    · have hkn : ¬ k = n := fun e => hn e.symm
      simp [hn, hkn, map_find]

theorem mem_foldl_emplace (l : List (String × Ptr)) :
    ∀ (m : mapActionsT) (e : String × Ptr),
      e ∈ l.foldl (fun m e => map_emplace m e.1 e.2) m → e ∈ m ∨ e ∈ l := by
  induction l with
  | nil => intro m e h; exact Or.inl h
  | cons x rest ih =>
    intro m e h
    simp only [List.foldl_cons] at h
    rcases ih _ e h with h1 | h1
    · unfold map_emplace at h1
      cases hf : map_find m x.1 with
      | some q => rw [hf] at h1; exact Or.inl h1
      | none =>
        rw [hf] at h1
        simp only [List.mem_append, List.mem_singleton] at h1
        rcases h1 with h2 | h2
        · exact Or.inl h2
        · exact Or.inr (h2 ▸ List.mem_cons_self _ _)
    · exact Or.inr (List.mem_cons_of_mem _ h1)

/-- While no stored pointer is null, `removeEmptyActions` removes nothing. -/
theorem removeEmptyActions_of_nonnull {R : Type} (act : actuator R)
    (h : ∀ e ∈ act.mapActions, e.2 ≠ none) : removeEmptyActions act = act := by
  have hnil : act.mapActions.filter (fun e => e.2.isNone) = [] := by
    rw [List.filter_eq_nil_iff]
    intro e he
    have := h e he
    cases h2 : e.2 with
    | none => exact absurd h2 this
    | some _ => simp
  obtain ⟨acts, m, res⟩ := act
  simp only [removeEmptyActions] at hnil ⊢
  simp [hnil]

/-- C19 (named construction, repeated names): when all the pairs given to `connect`
point to non-empty actions, every name is mapped to the pointer of its first pair in
the list, also when later pairs repeat the name. -/
theorem connect_named_first_wins {W A R : Type} (env : Env W A R) (A1 : String × Ptr)
    (An : List (String × Ptr))
    (hall : (A1 :: An).all (fun e => nonempty_at env.heap e.2) = true) (n : String) :
    map_find (connect_named A1 An : actuator R).mapActions n =
      ((A1 :: An).find? (fun e => decide (e.1 = n))).map (fun e => e.2) := by
  have hnn : ∀ e ∈ map_of_list (A1 :: An), e.2 ≠ none := by
    intro e he hEq
    rcases mem_foldl_emplace (A1 :: An) [] e he with h1 | h1
    · simp at h1
    · have := (List.all_eq_true.1 hall) e h1
      simp [hEq, nonempty_at] at this
  have hcon : (connect_named A1 An : actuator R) =
      { actuator.default R with mapActions := map_of_list (A1 :: An) } := by
    unfold connect_named
    exact removeEmptyActions_of_nonnull _ hnn
  rw [hcon, ← map_find_eq_find]
  simp only [map_of_list]
  rw [map_find_foldl_emplace]
  simp [map_find]

/-- The name "a" given twice, first with the first action and then with the third. -/
theorem connect_named_first_wins_witness :
    ([("a", some 1), ("b", some 2), ("a", some 3)] : List (String × Ptr)).all
      (fun e => nonempty_at env_rotate.heap e.2) = true ∧
    map_find (connect_named ("a", some 1) [("b", some 2), ("a", some 3)] :
      actuator Unit).mapActions "a" = some (some 1) :=
  ⟨by decide,
    (connect_named_first_wins env_rotate ("a", some 1) [("b", some 2), ("a", some 3)]
      (by decide) "a").trans (by decide)⟩

theorem map_erase_of_absent (m : mapActionsT) (n : String) (h : map_find m n = none) :
    map_erase m n = m := by
  induction m with
  | nil => rfl
  | cons e rest ih =>
    obtain ⟨k, p⟩ := e
    by_cases hk : k = n
    · simp [map_find, hk] at h
    · simp only [map_find, hk, if_false] at h
      have := ih h
      unfold map_erase at this ⊢
      simp [List.filter_cons, hk, this]

/-- C20 (removal by name): after `remove(n)` the named registry does not contain `n`
and maps every other name as before; when `n` was absent the actuator is unchanged;
the ordered registry and `results` are untouched in both cases. -/
theorem remove_named_erases {R : Type} (self : actuator R) (n : String) :
    has_action (remove_named self n) n = false ∧
    (∀ k, map_find (remove_named self n).mapActions k =
      if k = n then none else map_find self.mapActions k) ∧
    (has_action self n = false → remove_named self n = self) ∧
    (remove_named self n).actions = self.actions ∧
    (remove_named self n).results = self.results := by
  refine ⟨?_, ?_, ?_, rfl, rfl⟩
  · simp [has_action, remove_named, map_find_erase]
  · intro k; exact map_find_erase self.mapActions n k
  · intro h
    have habs : map_find self.mapActions n = none := by
      simpa [has_action] using h
    obtain ⟨acts, m, res⟩ := self
    simp only [remove_named, map_erase_of_absent m n habs]

/-! ## Properties of every invocation -/

/-- The ghost log, the ordered registry and `results` after any `invokeAction`,
whether it returns or not: at most one action was entered, the one the name is
mapped to. -/
theorem invokeAction_log {W A R : Type} (isVoid : Bool) (self : actuator R)
    (env : Env W A R) (n : String) (args : A) :
    ∃ recs : List (CallRecord A R),
      (invokeAction isVoid self env n args).env.calls = env.calls ++ recs ∧
      (invokeAction isVoid self env n args).self.actions = self.actions ∧
      (invokeAction isVoid self env n args).self.results =
        (if isVoid then [] else recs.filterMap (fun x => x.outcome.value?)) ∧
      recs.length ≤ 1 ∧
      (∀ x ∈ recs, map_find self.mapActions n = some (some x.action) ∧ x.args = args) := by
  cases hfind : map_find self.mapActions n with
  | none =>
    have hinv : invokeAction isVoid self env n args =
        ⟨none, env, { self with results := [] }⟩ := by
      unfold invokeAction
      simp only [hfind]
    rw [hinv]
    exact ⟨[], by simp⟩
  | some p =>
    cases p with
    | none =>
      have hinv : invokeAction isVoid self env n args =
          ⟨some .null_dereference, env, { self with results := [] }⟩ := by
        unfold invokeAction
        simp only [hfind, select_actuate, invoke]
      rw [hinv]
      exact ⟨[], by simp⟩
    | some a =>
      cases h : env.heap a with
      | none =>
        have hinv : invokeAction isVoid self env n args =
            ⟨some .bad_function_call, env, { self with results := [] }⟩ := by
          unfold invokeAction
          simp only [hfind]
          rw [select_actuate_empty isVoid _ env a args h]
        rw [hinv]
        exact ⟨[], by simp⟩
      | some f =>
        cases hr : (f args env.world).1 with
        | returned r =>
          have hinv : invokeAction isVoid self env n args =
              ⟨none,
                { env with world := (f args env.world).2,
                           calls := env.calls ++ [⟨a, args, .returned r⟩] },
                if isVoid then { self with results := [] }
                else { self with results := [r] }⟩ := by
            unfold invokeAction
            simp only [hfind]
            rw [select_actuate_returned isVoid _ env a args f r h hr]
            cases isVoid <;> simp
          rw [hinv]
          refine ⟨[⟨a, args, .returned r⟩], ?_⟩
          cases isVoid <;> simp [Outcome.value?]
        | raised ia =>
          have hinv : invokeAction isVoid self env n args =
              ⟨none,
                { env with world := (f args env.world).2,
                           calls := env.calls ++ [⟨a, args, .raised ia⟩],
                           cout := env.cout ++ [ia.what] },
                { self with results := [], mapActions := map_erase self.mapActions n }⟩ := by
            unfold invokeAction
            simp only [hfind]
            rw [select_actuate_raised isVoid _ env a args f ia h hr]
          rw [hinv]
          refine ⟨[⟨a, args, .raised ia⟩], ?_⟩
          cases isVoid <;> simp [Outcome.value?]

/-- C21 (void isolation): for a void signature `results` is empty after every
broadcast call and after every `invokeAction`, whatever `results` held before,
however many actions were entered and however the call ended. -/
theorem void_results_stay_empty {W A R : Type} (self : actuator R) (env : Env W A R)
    (n : String) (args : A) :
    (call_operator true self env args).self.results = [] ∧
    (invokeAction true self env n args).self.results = [] := by
  obtain ⟨_, _, _, g3, _, _⟩ := call_operator_log true self env args
  obtain ⟨_, _, _, k3, _, _⟩ := invokeAction_log true self env n args
  exact ⟨by simpa using g3, by simpa using k3⟩

/-- C22 (`is_connected`): it is true exactly when the ordered registry or the named
registry is not empty; it is false for a default-constructed actuator, and for the
result of `connect` it is true exactly when one of the arguments is a non-empty
action, hence false when all are empty.  It only reads the actuator. -/
theorem is_connected_iff {W A R : Type} (self : actuator R) (env : Env W A R) (A1 : Addr)
    (An : List Addr) :
    (is_connected self = true ↔ (self.actions ≠ [] ∨ self.mapActions ≠ [])) ∧
    is_connected (actuator.default R) = false ∧
    is_connected (connect env A1 An).self = (A1 :: An).any (fun a => (env.heap a).isSome) := by
  refine ⟨?_, rfl, ?_⟩
  · simp [is_connected, List.isEmpty_eq_false]
  · have hnn : ∀ p ∈ (A1 :: An).map some, p ≠ none := by
      intro p hp
      obtain ⟨a, _, rfl⟩ := List.mem_map.1 hp
      simp
    have hcon : (connect env A1 An).self =
        ⟨((A1 :: An).map some).filter (nonempty_at env.heap), [], []⟩ := by
      simp only [connect, actuator.default, remove_if_empty_of_nonnull env.heap _ hnn]
    rw [hcon]
    simp only [is_connected, List.isEmpty_nil, Bool.not_true, Bool.or_false]
    rw [List.filter_map]
    cases hany : (A1 :: An).any (fun a => (env.heap a).isSome) with
    | false =>
      have hnil : (A1 :: An).filter (nonempty_at env.heap ∘ some) = [] := by
        rw [List.filter_eq_nil_iff]
        intro a ha
        have := (List.any_eq_false.1 hany) a ha
        simpa [nonempty_at] using this
      simp [hnil]
    | true =>
      obtain ⟨a, ha, hs⟩ := List.any_eq_true.1 hany
      have hmem : a ∈ (A1 :: An).filter (nonempty_at env.heap ∘ some) := by
        rw [List.mem_filter]
        exact ⟨ha, by simpa [nonempty_at] using hs⟩
      have hne : (A1 :: An).filter (nonempty_at env.heap ∘ some) ≠ [] :=
        List.ne_nil_of_mem hmem
      cases hl : (A1 :: An).filter (nonempty_at env.heap ∘ some) with
      | nil => exact absurd hl hne
      | cons x xs => simp

/-- C23 (`has_action`): it is true exactly when the name is a key of the named
registry; neither the storage of the actions nor the ordered registry nor `results`
is looked at, and it only reads the actuator. -/
theorem has_action_iff {R : Type} (self : actuator R) (n : String) (l : List Ptr)
    (res : List R) :
    (has_action self n = true ↔ n ∈ self.mapActions.map Prod.fst) ∧
    has_action { self with actions := l, results := res } n = has_action self n := by
  refine ⟨?_, rfl⟩
  obtain ⟨acts, m, rs⟩ := self
  simp only [has_action]
  induction m with
  | nil => simp [map_find]
  | cons e rest ih =>
    obtain ⟨k, p⟩ := e
    by_cases hk : k = n
    · simp [map_find, hk]
    · have hnk : ¬ n = k := fun e => hk e.symm
      simp [map_find, hk, hnk, ih]

theorem remove_if_empty_eq_some {W A R : Type} (heap : Addr → Option (Callable W A R))
    (ps l : List Ptr) (h : remove_if_empty heap ps = some l) :
    l = ps.filter (nonempty_at heap) := by
  have hnn : ∀ (qs : List Ptr) (k : List Ptr), remove_if_empty heap qs = some k →
      ∀ q ∈ qs, q ≠ none := by
    intro qs
    induction qs with
    | nil => intro k _ q hq; simp at hq
    | cons q rest ih =>
      intro k hk x hx
      cases q with
      | none => simp [remove_if_empty] at hk
      | some a =>
        cases hrest : remove_if_empty heap rest with
        | none => simp [remove_if_empty, hrest] at hk
        | some k1 =>
          rcases List.mem_cons.1 hx with rfl | hx1
          · simp
          · exact ih k1 hrest x hx1
  rw [remove_if_empty_of_nonnull heap ps (hnn ps l h)] at h
  exact (Option.some.inj h).symm

/-- C24 (no stale entry survives a broadcast): after every broadcast call that
returns, every entry of the ordered registry points to a non-empty action in the
storage the call left; the same holds for the ordered registry that
`connect(A1, ..., An)` returns. -/
theorem no_stale_entry_after_broadcast {W A R : Type} (isVoid : Bool) (self : actuator R)
    (env : Env W A R) (args : A) (A1 : Addr) (An : List Addr)
    (hret : (call_operator isVoid self env args).raised = none) :
    (call_operator isVoid self env args).self.actions.all
      (nonempty_at (call_operator isVoid self env args).env.heap) = true ∧
    (connect env A1 An).self.actions.all (nonempty_at env.heap) = true := by
  constructor
  · unfold call_operator at hret ⊢
    simp only [] at hret ⊢
    generalize call_operator_loop isVoid args self.actions env { self with results := [] } = L
      at hret ⊢
    obtain ⟨raised, env1, self1⟩ := L
    cases raised with
    | some t => simp at hret
    | none =>
      simp only [] at hret ⊢
      cases hrem : remove_if_empty env1.heap self1.actions with
      | none => simp [hrem] at hret
      | some l =>
        simp only []
        rw [remove_if_empty_eq_some env1.heap self1.actions l hrem, List.all_eq_true]
        intro p hp
        exact (List.mem_filter.1 hp).2
  · have hnn : ∀ p ∈ (A1 :: An).map some, p ≠ none := by
      intro p hp
      obtain ⟨a, _, rfl⟩ := List.mem_map.1 hp
      simp
    simp only [connect, actuator.default, remove_if_empty_of_nonnull env.heap _ hnn]
    rw [List.all_eq_true]
    intro p hp
    exact (List.mem_filter.1 hp).2

/-- After the broadcast of `test_invalid_action` the two entries left point to
non-empty actions. -/
theorem no_stale_entry_after_broadcast_witness :
    (call_operator true (⟨[some 1, some 2, some 3], [], []⟩ : actuator Unit)
      env_rotate 60).raised = none ∧
    (call_operator true (⟨[some 1, some 2, some 3], [], []⟩ : actuator Unit)
      env_rotate 60).self.actions.all
      (nonempty_at (call_operator true (⟨[some 1, some 2, some 3], [], []⟩ : actuator Unit)
        env_rotate 60).env.heap) = true :=
  ⟨by decide,
    (no_stale_entry_after_broadcast true (⟨[some 1, some 2, some 3], [], []⟩ : actuator Unit)
      env_rotate 60 1 [] (by decide)).1⟩

/-- C26 (the two addressing schemes are independent): a broadcast call leaves the
named registry as it was and enters only actions that an entry of the ordered
registry points to; `invokeAction` leaves the ordered registry as it was and enters
at most one action, the one its name is mapped to in the named registry. -/
theorem registries_are_independent {W A R : Type} (isVoid : Bool) (self : actuator R)
    (env : Env W A R) (n : String) (args : A) :
    (call_operator isVoid self env args).self.mapActions = self.mapActions ∧
    (∀ x ∈ new_calls env (call_operator isVoid self env args).env,
      some x.action ∈ self.actions) ∧
    (invokeAction isVoid self env n args).self.actions = self.actions ∧
    (new_calls env (invokeAction isVoid self env n args).env).length ≤ 1 ∧
    (∀ x ∈ new_calls env (invokeAction isVoid self env n args).env,
      map_find self.mapActions n = some (some x.action)) := by
  obtain ⟨recs, g1, g2, _, _, g5⟩ := call_operator_log isVoid self env args
  obtain ⟨recs1, k1, k2, _, k4, k5⟩ := invokeAction_log isVoid self env n args
  rw [new_calls_append env _ recs g1, new_calls_append env _ recs1 k1]
  exact ⟨g2, fun x hx => (g5 x hx).1, k2, k4, fun x hx => (k5 x hx).1⟩

/-- C27 (self-assignment empties the actuator): when the actuator assigned from is
the actuator assigned to, both registries are cleared before they are read, so both
are empty afterwards and `is_connected()` is false, whatever they held; `results`
and every other actuator are unchanged. -/
theorem operator_assign_self_empties {R : Type} (store : Nat → actuator R) (a : Nat) :
    (operator_assign store a a a).actions = [] ∧
    (operator_assign store a a a).mapActions = [] ∧
    is_connected (operator_assign store a a a) = false ∧
    (operator_assign store a a a).results = (store a).results ∧
    (∀ k, k ≠ a → operator_assign store a a k = store k) := by
  refine ⟨?_, ?_, ?_, ?_, ?_⟩
  · simp [operator_assign]
  · simp [operator_assign]
  · simp [operator_assign, is_connected]
  · simp [operator_assign]
  · intro k hk
    simp [operator_assign, Function.update_noteq hk]

/-! ## Two broadcasts in a row -/

end untangle
